import Mathlib

/-!
Shallow embedding of the OCR post-processing core of the
DeliveryOptimization repository (src/src/ingestion/ocr.py and
src/procesador.py), together with proofs of the specification claims.

Python strings are modelled as List Char (with String wrappers at the
API boundary); Python regexes used by the code are modelled by explicit
leftmost-match searchers; datetime values are modelled by explicit
day/month/year and hour/minute records with Nat fields.
-/

namespace DeliveryOpt

/-! ### Character and string utilities (Python str.strip, str.lower, regex classes) -/

/-- Whitespace class: the characters Python's str.strip and the regex
class for whitespace treat as blank (ASCII range). -/
def isWS (c : Char) : Bool :=
  c = ' ' || c = '\t' || c = '\n' || c = '\r' || c = '\x0b' || c = '\x0c'

/-- ASCII decimal digit test (regex digit class), expressed on code
points. -/
def isDigitCh (c : Char) : Bool := decide (48 ≤ c.toNat) && decide (c.toNat ≤ 57)

/-- Numeric value of a digit character, none for a non-digit. -/
def digVal (c : Char) : Option Nat :=
  if isDigitCh c then some (c.toNat - 48) else none

/-- Non-ASCII characters (accented Spanish letters) count as word
characters for the Python regex word class. -/
def isUni (c : Char) : Bool := decide (128 ≤ c.toNat)

/-- Python regex word-character class: alphanumeric, underscore, or
non-ASCII letter. -/
def isWordCh (c : Char) : Bool := c.isAlphanum || c = '_' || isUni c

/-- Strip leading whitespace (left half of Python str.strip). -/
def lstrip (cs : List Char) : List Char := cs.dropWhile isWS

/-- Strip trailing whitespace, defined by structural recursion. -/
def rstripRec : List Char → List Char
  | [] => []
  | c :: t =>
    match rstripRec t with
    | [] => if isWS c then [] else [c]
    | x :: xs => c :: x :: xs

/-- Python str.strip: remove leading and trailing whitespace. -/
def strip (cs : List Char) : List Char := rstripRec (lstrip cs)

/-- Whether the first list occurs at the start of the second. -/
def startsList : List Char → List Char → Bool
  | [], _ => true
  | _ :: _, [] => false
  | a :: as, b :: bs => a = b && startsList as bs

/-- Whether the first list occurs as a contiguous sublist of the second
(Python substring containment). -/
def containsSub (needle : List Char) : List Char → Bool
  | [] => startsList needle []
  | c :: t => startsList needle (c :: t) || containsSub needle t

/-- Whether the list contains two adjacent decimal digits somewhere. -/
def hasTwoDigits : List Char → Bool
  | c1 :: c2 :: rest => (isDigitCh c1 && isDigitCh c2) || hasTwoDigits (c2 :: rest)
  | _ => false

/-! ### Line classifier (es_separador) -/

/-- The fixed keyword list of es_separador, in source order. -/
def kwSeparadores : List (List Char) :=
  ["pedido agrupado".toList, "completado".toList, "cancelado".toList,
   "ver detalles".toList, "horas conectado".toList, "promedio".toList,
   "ars".toList]

/-- Start-of-line match for three word characters, a comma, a space and
a digit (abbreviated weekday heading such as vie, 5). -/
def matchesWeekdayStart : List Char → Bool
  | a :: b :: c :: ',' :: ' ' :: d :: _ =>
    isWordCh a && isWordCh b && isWordCh c && isDigitCh d
  | _ => false

/-- Core of es_separador over a character list: the line is lowercased
and stripped, then the four noise rules are tried in source order. -/
def es_separadorCore (texto : List Char) : Bool :=
  let t := strip (texto.map Char.toLower)
  if 7 ≤ t.length && t.all isDigitCh then true
  else if kwSeparadores.any (fun kw => containsSub kw t) then true
  else if containsSub "semana".toList t && hasTwoDigits t then true
  else if matchesWeekdayStart t then true
  else false

/-- Line classifier of the source: true when the OCR line is noise or
metadata rather than vendor-name content. -/
def es_separador (texto : String) : Bool := es_separadorCore texto.toList

/-! ### Dates, times and the strptime model

Python's strptime compiles each directive to a regex alternation; a
one-or-two digit field accepts a two-digit form when its value lies in
the directive's range, else a single digit, and runs of whitespace in
the format match one or more whitespace characters.  The whole input
must be consumed, and the datetime constructor then validates the
calendar (day against month length, year at least 1). -/

structure Date where
  day : Nat
  month : Nat
  year : Nat
deriving DecidableEq, Repr

structure Time where
  hour : Nat
  minute : Nat
deriving DecidableEq, Repr

structure DateTime where
  date : Date
  time : Time
deriving DecidableEq, Repr

/-- Gregorian leap-year test. -/
def esLeap (y : Nat) : Bool := y % 4 = 0 && (y % 100 ≠ 0 || y % 400 = 0)

/-- Length in days of a month of a given year. -/
def daysInMonth (m y : Nat) : Nat :=
  if m = 2 then (if esLeap y then 29 else 28)
  else if m = 4 || m = 6 || m = 9 || m = 11 then 30
  else 31

/-- Calendar validity as enforced by the datetime constructor. -/
def validDate (d : Date) : Prop :=
  1 ≤ d.year ∧ d.year ≤ 9999 ∧ 1 ≤ d.month ∧ d.month ≤ 12 ∧
  1 ≤ d.day ∧ d.day ≤ daysInMonth d.month d.year

instance : DecidablePred validDate := fun _ => by unfold validDate; infer_instance

/-- Clock validity as enforced by the time constructor. -/
def validTime (t : Time) : Prop := t.hour ≤ 23 ∧ t.minute ≤ 59

instance : DecidablePred validTime := fun _ => by unfold validTime; infer_instance

/-- One-or-two digit strptime field: two digits are taken when the
combined value passes ok2, a lone digit when it passes ok1; a two-digit
value out of range fails the whole parse, since the digit that follows
can never match the non-digit separator expected next. -/
def parseField (ok2 ok1 : Nat → Bool) : List Char → Option (Nat × List Char)
  | c1 :: c2 :: rest =>
    match digVal c1, digVal c2 with
    | some v1, some v2 =>
      if ok2 (10 * v1 + v2) then some (10 * v1 + v2, rest) else none
    | some v1, none => if ok1 v1 then some (v1, c2 :: rest) else none
    | none, _ => none
  | [c1] =>
    match digVal c1 with
    | some v1 => if ok1 v1 then some (v1, []) else none
    | none => none
  | [] => none

/-- Four-digit strptime year field. -/
def parseYear4 : List Char → Option (Nat × List Char)
  | c1 :: c2 :: c3 :: c4 :: rest =>
    match digVal c1, digVal c2, digVal c3, digVal c4 with
    | some a, some b, some c, some d => some (1000 * a + 100 * b + 10 * c + d, rest)
    | _, _, _, _ => none
  | _ => none

/-- Literal character expected by the format. -/
def expectCh (c : Char) : List Char → Option (List Char)
  | x :: rest => if x = c then some rest else none
  | [] => none

/-- One-or-more whitespace characters, matching a blank in the format. -/
def parseWS1 : List Char → Option (List Char)
  | c :: rest => if isWS c then some (rest.dropWhile isWS) else none
  | [] => none

def okD2 (v : Nat) : Bool := decide (1 ≤ v ∧ v ≤ 31)
def okD1 (v : Nat) : Bool := decide (1 ≤ v)
def okM2 (v : Nat) : Bool := decide (1 ≤ v ∧ v ≤ 12)
def okM1 (v : Nat) : Bool := decide (1 ≤ v)
def okH2 (v : Nat) : Bool := decide (v ≤ 23)
def okH1 (_ : Nat) : Bool := true
def okMin2 (v : Nat) : Bool := decide (v ≤ 59)
def okMin1 (_ : Nat) : Bool := true
def okS2 (v : Nat) : Bool := decide (v ≤ 61)
def okS1 (_ : Nat) : Bool := true

/-- strptime with format day/month/year (as used for the anchor base
date): parse, require the input consumed, then validate the calendar. -/
def parseDateDMY (cs : List Char) : Option Date := do
  let (d, r1) ← parseField okD2 okD1 cs
  let r2 ← expectCh '/' r1
  let (m, r3) ← parseField okM2 okM1 r2
  let r4 ← expectCh '/' r3
  let (y, r5) ← parseYear4 r4
  if r5 = [] ∧ 1 ≤ y ∧ d ≤ daysInMonth m y then some ⟨d, m, y⟩ else none

/-- strptime with format hour:minute, as applied to each captured clock
string of a time-range line. -/
def parseTimeHM (cs : List Char) : Option Time := do
  let (h, r1) ← parseField okH2 okH1 cs
  let r2 ← expectCh ':' r1
  let (mi, r3) ← parseField okMin2 okMin1 r2
  if r3 = [] then some ⟨h, mi⟩ else none

/-- Format day/month/year blank hour:minute:second. -/
def fmtDMYhms (cs : List Char) : Option DateTime := do
  let (d, r1) ← parseField okD2 okD1 cs
  let r2 ← expectCh '/' r1
  let (m, r3) ← parseField okM2 okM1 r2
  let r4 ← expectCh '/' r3
  let (y, r5) ← parseYear4 r4
  let r6 ← parseWS1 r5
  let (h, r7) ← parseField okH2 okH1 r6
  let r8 ← expectCh ':' r7
  let (mi, r9) ← parseField okMin2 okMin1 r8
  let r10 ← expectCh ':' r9
  let (s, r11) ← parseField okS2 okS1 r10
  if r11 = [] ∧ 1 ≤ y ∧ d ≤ daysInMonth m y ∧ s ≤ 59 then
    some ⟨⟨d, m, y⟩, ⟨h, mi⟩⟩ else none

/-- Format year-month-day blank hour:minute:second. -/
def fmtYMDhms (cs : List Char) : Option DateTime := do
  let (y, r1) ← parseYear4 cs
  let r2 ← expectCh '-' r1
  let (m, r3) ← parseField okM2 okM1 r2
  let r4 ← expectCh '-' r3
  let (d, r5) ← parseField okD2 okD1 r4
  let r6 ← parseWS1 r5
  let (h, r7) ← parseField okH2 okH1 r6
  let r8 ← expectCh ':' r7
  let (mi, r9) ← parseField okMin2 okMin1 r8
  let r10 ← expectCh ':' r9
  let (s, r11) ← parseField okS2 okS1 r10
  if r11 = [] ∧ 1 ≤ y ∧ d ≤ daysInMonth m y ∧ s ≤ 59 then
    some ⟨⟨d, m, y⟩, ⟨h, mi⟩⟩ else none

/-- Format day/month/year blank hour:minute. -/
def fmtDMYhm (cs : List Char) : Option DateTime := do
  let (d, r1) ← parseField okD2 okD1 cs
  let r2 ← expectCh '/' r1
  let (m, r3) ← parseField okM2 okM1 r2
  let r4 ← expectCh '/' r3
  let (y, r5) ← parseYear4 r4
  let r6 ← parseWS1 r5
  let (h, r7) ← parseField okH2 okH1 r6
  let r8 ← expectCh ':' r7
  let (mi, r9) ← parseField okMin2 okMin1 r8
  if r9 = [] ∧ 1 ≤ y ∧ d ≤ daysInMonth m y then
    some ⟨⟨d, m, y⟩, ⟨h, mi⟩⟩ else none

/-- Format year-month-day blank hour:minute. -/
def fmtYMDhm (cs : List Char) : Option DateTime := do
  let (y, r1) ← parseYear4 cs
  let r2 ← expectCh '-' r1
  let (m, r3) ← parseField okM2 okM1 r2
  let r4 ← expectCh '-' r3
  let (d, r5) ← parseField okD2 okD1 r4
  let r6 ← parseWS1 r5
  let (h, r7) ← parseField okH2 okH1 r6
  let r8 ← expectCh ':' r7
  let (mi, r9) ← parseField okMin2 okMin1 r8
  if r9 = [] ∧ 1 ≤ y ∧ d ≤ daysInMonth m y then
    some ⟨⟨d, m, y⟩, ⟨h, mi⟩⟩ else none

/-- The four formats of normalizar_para_comparar, tried in source
order; the first that parses wins. -/
def tryFormats (cs : List Char) : Option DateTime :=
  fmtDMYhms cs <|> fmtYMDhms cs <|> fmtDMYhm cs <|> fmtYMDhm cs

/-- Digit character for a value below ten. -/
def dChar (n : Nat) : Char := Char.ofNat (48 + n)

/-- Two-digit zero-padded rendering (strftime day, month, hour, minute). -/
def pad2 (n : Nat) : List Char := [dChar (n / 10 % 10), dChar (n % 10)]

/-- Four-digit zero-padded rendering (strftime year). -/
def pad4 (y : Nat) : List Char :=
  [dChar (y / 1000 % 10), dChar (y / 100 % 10), dChar (y / 10 % 10), dChar (y % 10)]

/-- strftime with the canonical exchange format: zero-padded
day/month/year blank hour:minute. -/
def renderDT (dt : DateTime) : List Char :=
  pad2 dt.date.day ++ '/' :: (pad2 dt.date.month ++ '/' :: (pad4 dt.date.year ++
    ' ' :: (pad2 dt.time.hour ++ ':' :: pad2 dt.time.minute)))

/-! ### Signature deduplicator -/

/-- Timestamp normalization of the source: null becomes empty, the
empty string stays empty, otherwise the trimmed text is tried against
the four formats and reformatted canonically on the first success, or
returned trimmed as-is when no format matches.  A null spreadsheet cell
is modelled by none. -/
def normalizar_para_comparar (valor : Option String) : String :=
  match valor with
  | none => ""
  | some s =>
    if s = "" then ""
    else
      let texto := strip s.toList
      match tryFormats texto with
      | some dt => String.mk (renderDT dt)
      | none => String.mk texto

/-- A historical order row as consumed by the deduplicator: the two
timestamp cells, each possibly null. -/
structure RowFirma where
  horaAceptacion : Option String
  horaEntrega : Option String
deriving DecidableEq

/-- Signature-set construction of the source: one signature per
historical row whose two normalized timestamps are both non-empty.  The
Python set is modelled as a list queried by membership. -/
def obtener_firmas_existentes (rows : List RowFirma) : List String :=
  rows.filterMap (fun r =>
    let ha := normalizar_para_comparar r.horaAceptacion
    let he := normalizar_para_comparar r.horaEntrega
    if ha ≠ "" ∧ he ≠ "" then some (ha ++ "_" ++ he) else none)

/-- Duplicate test of the source: exact membership of the concatenated
raw strings, with no re-normalization. -/
def pedido_ya_existe (horaAceptacion horaEntrega : String)
    (firmas : List String) : Bool :=
  decide ((horaAceptacion ++ "_" ++ horaEntrega) ∈ firmas)

/-! ### Regex searchers of the orchestrator

The three patterns of the source (date anchor, year, time range) are
modelled by leftmost-match searchers: the match is attempted at every
start position in turn.  Greedy one-or-two digit groups need no
backtracking here because every character that follows such a group in
these patterns is a non-digit. -/

/-- Greedy one-or-two digit capture. -/
def takeDigits12 : List Char → Option (List Char × List Char)
  | c1 :: c2 :: rest =>
    match digVal c1, digVal c2 with
    | some _, some _ => some ([c1, c2], rest)
    | some _, none => some ([c1], c2 :: rest)
    | none, _ => none
  | [c1] => if isDigitCh c1 then some ([c1], []) else none
  | [] => none

/-- Attempt of the date-anchor pattern at the current position: three
word characters, a comma, optional blanks, one or two digits, optional
blanks, the particle de case-insensitively, optional blanks, three word
characters.  Returns the captured day digits and month letters. -/
def tryFechaAt (cs : List Char) : Option (List Char × List Char) :=
  match cs with
  | w1 :: w2 :: w3 :: ',' :: rest =>
    if isWordCh w1 && isWordCh w2 && isWordCh w3 then
      match takeDigits12 (rest.dropWhile isWS) with
      | some (ds, r2) =>
        match r2.dropWhile isWS with
        | d :: e :: r4 =>
          if d.toLower = 'd' && e.toLower = 'e' then
            match r4.dropWhile isWS with
            | m1 :: m2 :: m3 :: _ =>
              if isWordCh m1 && isWordCh m2 && isWordCh m3 then
                some (ds, [m1, m2, m3])
              else none
            | _ => none
          else none
        | _ => none
      | none => none
    else none
  | _ => none

/-- Leftmost match of the date-anchor pattern in a line. -/
def searchFecha : List Char → Option (List Char × List Char)
  | [] => none
  | c :: rest =>
    match tryFechaAt (c :: rest) with
    | some r => some r
    | none => searchFecha rest

/-- Leftmost match of the year pattern: the digits two, zero, then any
two digits. -/
def searchAnio : List Char → Option (List Char)
  | [] => none
  | c :: rest =>
    match c :: rest with
    | '2' :: '0' :: c3 :: c4 :: _ =>
      if isDigitCh c3 && isDigitCh c4 then some ['2', '0', c3, c4]
      else searchAnio rest
    | _ => searchAnio rest

/-- Two-digit-hour clock capture at the current position. -/
def matchClockTwo : List Char → Option (List Char × List Char)
  | c1 :: c2 :: ':' :: c3 :: c4 :: rest =>
    if isDigitCh c1 && isDigitCh c2 && isDigitCh c3 && isDigitCh c4 then
      some ([c1, c2, ':', c3, c4], rest)
    else none
  | _ => none

/-- One-digit-hour clock capture at the current position. -/
def matchClockOne : List Char → Option (List Char × List Char)
  | c1 :: ':' :: c3 :: c4 :: rest =>
    if isDigitCh c1 && isDigitCh c3 && isDigitCh c4 then
      some ([c1, ':', c3, c4], rest)
    else none
  | _ => none

/-- Greedy clock capture: two digits before the colon when possible. -/
def matchClock (cs : List Char) : Option (List Char × List Char) :=
  matchClockTwo cs <|> matchClockOne cs

/-- Attempt of the time-range pattern at the current position: a clock,
optional blanks, a hyphen, optional blanks, a second clock.  Returns
the two captured clock strings. -/
def tryHorasAt (cs : List Char) : Option (List Char × List Char) :=
  match matchClock cs with
  | none => none
  | some (g1, r1) =>
    match expectCh '-' (r1.dropWhile isWS) with
    | none => none
    | some r2 =>
      match matchClock (r2.dropWhile isWS) with
      | none => none
      | some (g2, _) => some (g1, g2)

/-- Leftmost match of the time-range pattern in a line. -/
def searchHoras : List Char → Option (List Char × List Char)
  | [] => none
  | c :: rest =>
    match tryHorasAt (c :: rest) with
    | some r => some r
    | none => searchHoras rest

/-! ### Extraction orchestrator -/

/-- An extracted order candidate with its rendered timestamps. -/
structure Pedido where
  horaAceptacion : String
  horaEntrega : String
  nombreLocal : String
deriving DecidableEq, Repr

/-- Left-pad the captured day digits to two characters. -/
def zfill2 (ds : List Char) : List Char := if ds.length = 1 then '0' :: ds else ds

/-- The twelve-entry Spanish month table; unknown abbreviations default
to the first month. -/
def mesesLookup (m : List Char) : List Char :=
  if m = "ene".toList then "01".toList
  else if m = "feb".toList then "02".toList
  else if m = "mar".toList then "03".toList
  else if m = "abr".toList then "04".toList
  else if m = "may".toList then "05".toList
  else if m = "jun".toList then "06".toList
  else if m = "jul".toList then "07".toList
  else if m = "ago".toList then "08".toList
  else if m = "sep".toList then "09".toList
  else if m = "oct".toList then "10".toList
  else if m = "nov".toList then "11".toList
  else if m = "dic".toList then "12".toList
  else "01".toList

/-- Day-and-month fragment built from a date-anchor match. -/
def fechaBaseDe (ds mon : List Char) : List Char :=
  zfill2 ds ++ ['/'] ++ mesesLookup (mon.map Char.toLower)

/-- First match of a per-line searcher across the lines, in order. -/
def firstSome (f : List Char → Option α) : List (List Char) → Option α
  | [] => none
  | l :: rest =>
    match f l with
    | some r => some r
    | none => firstSome f rest

/-- Splitting the raw OCR text into trimmed non-blank lines. -/
def mkLineas (texto : String) : List (List Char) :=
  ((texto.toList.splitOn '\n').map strip).filter (fun l => !l.isEmpty)

/-- Name cleanup of the source: strip the leading run of characters
outside the word class, strip the trailing run of characters that are
neither word characters, whitespace nor parentheses, then trim. -/
def limpiarNombre (cs : List Char) : List Char :=
  let a := cs.dropWhile (fun c => !(c.isAlphanum || isUni c))
  let b := (a.reverse.dropWhile
    (fun c => !(isWordCh c || isWS c || c = '(' || c = ')'))).reverse
  strip b

/-- Vendor-name reconstruction for the time-range line at index i: the
placeholder for index zero, else the previous line, with the line two
back prepended when it exists and is not a separator, then cleanup. -/
def reconstruir_nombre (lineas : List (List Char)) (i : Nat) : List Char :=
  let nombre :=
    if i = 0 then "Desconocido".toList
    else
      let base := lineas.getD (i - 1) []
      if 1 < i ∧ es_separadorCore (lineas.getD (i - 2) []) = false then
        lineas.getD (i - 2) [] ++ ' ' :: base
      else base
  limpiarNombre nombre

/-- Lexicographic strict order on dates, year first. -/
def dateLtB (a b : Date) : Bool :=
  a.year < b.year || (a.year = b.year &&
    (a.month < b.month || (a.month = b.month && a.day < b.day)))

/-- Strict order on clock times. -/
def timeLtB (a b : Time) : Bool :=
  a.hour < b.hour || (a.hour = b.hour && a.minute < b.minute)

/-- Strict order on datetimes, date first. -/
def dtLtB (a b : DateTime) : Bool :=
  dateLtB a.date b.date || (a.date = b.date && timeLtB a.time b.time)

/-- Non-strict order on datetimes. -/
def dtLeB (a b : DateTime) : Bool := !dtLtB b a

/-- The calendar day after the given one. -/
def nextDay (d : Date) : Date :=
  if d.day < daysInMonth d.month d.year then ⟨d.day + 1, d.month, d.year⟩
  else if d.month < 12 then ⟨1, d.month + 1, d.year⟩
  else ⟨1, 1, d.year + 1⟩

/-- Adding one day with the datetime range check: past the maximal
representable date the addition raises, modelled by none. -/
def addDayChecked (d : Date) : Option Date :=
  let d' := nextDay d
  if d'.year ≤ 9999 then some d' else none

/-- Delivery datetime of a time-range line: the end clock on the base
date, advanced by one day when it compares strictly below the
acceptance datetime. -/
def computeEntrega (base : Date) (hIni hFin : Time) : Option DateTime :=
  if dtLtB ⟨base, hFin⟩ ⟨base, hIni⟩ then
    (addDayChecked base).map (fun d => ⟨d, hFin⟩)
  else some (⟨base, hFin⟩ : DateTime)

/-- Per-image extraction loop shared by both source variants.  One pass
over the indexed lines: a line with a time-range match contributes a
candidate; a clock string that fails to parse is fatal when strictHoras
is true (the ingestion module has no handler there) and skips the line
otherwise (the batch script catches the error and continues). -/
def pedidosLoop (strictHoras : Bool) (base : Date) (lineas : List (List Char)) :
    List (Nat × List Char) → Except Unit (List Pedido)
  | [] => .ok []
  | (i, linea) :: rest =>
    match searchHoras linea with
    | none => pedidosLoop strictHoras base lineas rest
    | some (g1, g2) =>
      match parseTimeHM g1, parseTimeHM g2 with
      | some hIni, some hFin =>
        match computeEntrega base hIni hFin with
        | none => .error ()
        | some dtEntr =>
          match pedidosLoop strictHoras base lineas rest with
          | .error e => .error e
          | .ok ps =>
            .ok ({ horaAceptacion := String.mk (renderDT ⟨base, hIni⟩),
                   horaEntrega := String.mk (renderDT dtEntr),
                   nombreLocal := String.mk (reconstruir_nombre lineas i) } :: ps)
      | _, _ =>
        if strictHoras then .error () else pedidosLoop strictHoras base lineas rest

/-- Extraction orchestrator of src/src/ingestion/ocr.py, modelled from
the recognized text onward (the imaging and OCR engine are external
collaborators).  currentYear stands for the system year used when no
year line is found.  An unhandled ValueError of the source is modelled
by an error value. -/
def procesar_imagen_ocr (texto : String) (currentYear : Nat) :
    Except Unit (List Pedido) :=
  let lineas := mkLineas texto
  let fechaBase := firstSome searchFecha lineas
  let anioBase := (firstSome searchAnio lineas).getD (Nat.repr currentYear).toList
  match fechaBase with
  | none => .ok []
  | some (ds, mon) =>
    match parseDateDMY (fechaBaseDe ds mon ++ ['/'] ++ anioBase) with
    | none => .error ()
    | some base => pedidosLoop true base lineas lineas.enum

/-- Extraction orchestrator of src/procesador.py: identical except that
an invalid composed base date returns the empty list and an invalid
clock string skips its line, both through explicit handlers. -/
def procesar_imagen_ocr_batch (texto : String) (currentYear : Nat) :
    Except Unit (List Pedido) :=
  let lineas := mkLineas texto
  let fechaBase := firstSome searchFecha lineas
  let anioBase := (firstSome searchAnio lineas).getD (Nat.repr currentYear).toList
  match fechaBase with
  | none => .ok []
  | some (ds, mon) =>
    match parseDateDMY (fechaBaseDe ds mon ++ ['/'] ++ anioBase) with
    | none => .ok []
    | some base => pedidosLoop false base lineas lineas.enum

/-! ### Historical enrichment lookup -/

/-- A historical order row as consumed by the enrichment lookup: the
vendor-name cell (possibly null) and the three attribute cells. -/
structure RowLocal where
  nombreLocal : Option String
  tipoNegocio : String
  cadena : String
  cpLocal : String
deriving DecidableEq

/-- Vendor attribute record handed to the form prefiller. -/
structure DatosLocal where
  tipoNegocio : String
  cadena : String
  cpLocal : String
deriving DecidableEq, Repr

/-- Distinct values in first-appearance order, as the unique method of
the dataframe column yields them. -/
def uniqFirstGo (seen : List String) : List String → List String
  | [] => []
  | a :: t => if a ∈ seen then uniqFirstGo seen t else a :: uniqFirstGo (a :: seen) t

def uniqFirst (l : List String) : List String := uniqFirstGo [] l

/-- Attributes of the last stored row bearing the given vendor name
among the rows with a non-null name. -/
def atributosUltimaFila (rows : List RowLocal) (nombre : String) : DatosLocal :=
  match (rows.filter (fun r => r.nombreLocal = some nombre)).getLast? with
  | some r => ⟨r.tipoNegocio, r.cadena, r.cpLocal⟩
  | none => ⟨"", "", ""⟩

/-- Vendor knowledge mapping of the source: drop the null-name rows,
then for each distinct name in column order keep the attributes of its
last row. -/
def obtener_diccionario_locales (rows : List RowLocal) :
    List (String × DatosLocal) :=
  let dfUtil := rows.filter (fun r => r.nombreLocal.isSome)
  (uniqFirst (dfUtil.filterMap (fun r => r.nombreLocal))).map
    (fun n => (n, atributosUltimaFila dfUtil n))

/-- Enrichment lookup of the source: rebuild the mapping, then return
the entry for the name, or a record of empty defaults when absent. -/
def completar_datos_local_desde_historico (nombreLocal : String)
    (rows : List RowLocal) : DatosLocal :=
  (((obtener_diccionario_locales rows).lookup nombreLocal)).getD ⟨"", "", ""⟩

/-- Claim-side restatement of the separator rules as one disjunction
over the lowercased trimmed line: purely digits of length at least
seven, or containing a fixed keyword, or containing the word semana
together with a two-digit number, or starting with an abbreviated
weekday heading. -/
def esSeparadorClaim (texto : String) : Bool :=
  let t := strip (texto.toList.map Char.toLower)
  (7 ≤ t.length && t.all isDigitCh) ||
  kwSeparadores.any (fun kw => containsSub kw t) ||
  (containsSub "semana".toList t && hasTwoDigits t) ||
  matchesWeekdayStart t

/-! ## Claims -/

/-- C1.  The claim states that a line whose captured clock string is
not a valid clock time (hour twenty-five) is skipped while the
remaining lines still yield their candidates.  The batch script
(src/procesador.py) does exactly that, but the ingestion module
(src/src/ingestion/ocr.py) parses the clocks with no handler, so the
ValueError aborts the whole image: on the same input the batch variant
returns the candidate of the good line while the ingestion variant
fails. -/
theorem c1_clock_parse_divergence :
    procesar_imagen_ocr_batch
        "lun, 5 de mar 2024\nCompletado\nGoodShop\n12:00 - 12:30\nCompletado\nBadShop\n25:30 - 26:00" 2026
      = .ok [{ horaAceptacion := "05/03/2024 12:00",
               horaEntrega := "05/03/2024 12:30",
               nombreLocal := "GoodShop" }] ∧
    procesar_imagen_ocr
        "lun, 5 de mar 2024\nCompletado\nGoodShop\n12:00 - 12:30\nCompletado\nBadShop\n25:30 - 26:00" 2026
      = .error () := by
  constructor <;> rfl

/-- C2.  The claim states that a calendrically invalid composed base
date (day thirty-one of a thirty-day month) makes extraction return the
empty sequence without raising.  The batch script does return the empty
list there, but the ingestion module composes the base date with no
handler, so the ValueError aborts the image instead of yielding the
empty sequence. -/
theorem c2_invalid_date_divergence :
    procesar_imagen_ocr_batch "mié, 31 de abr 2024\nShop\n12:00 - 12:30" 2026
      = .ok [] ∧
    procesar_imagen_ocr "mié, 31 de abr 2024\nShop\n12:00 - 12:30" 2026
      = .error () := by
  constructor <;> rfl

/-! ### Order lemmas for the rollover claim -/

lemma dateLtB_irrefl (d : Date) : dateLtB d d = false := by
  simp [dateLtB]

lemma dtLtB_same_date (d : Date) (a b : Time) :
    dtLtB ⟨d, a⟩ ⟨d, b⟩ = timeLtB a b := by
  simp [dtLtB, dateLtB_irrefl]

lemma dateLtB_nextDay (d : Date) : dateLtB d (nextDay d) = true := by
  unfold nextDay
  split_ifs <;> simp [dateLtB]

lemma dateLtB_asymm {a b : Date} (h : dateLtB a b = true) :
    dateLtB b a = false ∧ a ≠ b := by
  simp only [dateLtB, Bool.or_eq_true, Bool.and_eq_true, decide_eq_true_eq] at h
  constructor
  · rw [← Bool.not_eq_true]
    intro h'
    simp only [dateLtB, Bool.or_eq_true, Bool.and_eq_true, decide_eq_true_eq] at h'
    omega
  · intro he
    subst he
    omega

lemma addDayChecked_some {d d' : Date} (h : addDayChecked d = some d') :
    d' = nextDay d := by
  simp only [addDayChecked] at h
  split_ifs at h
  simp_all

/-- C3.  Delivery never precedes acceptance: when the end clock time is
strictly earlier than the start clock time the delivery datetime is the
end time on the day after the base date, otherwise both datetimes share
the base date; and the spec's concrete rollover image yields exactly
the stated acceptance and delivery strings. -/
theorem c3_delivery_rollover :
    (∀ (base : Date) (hIni hFin : Time) (e : DateTime),
        computeEntrega base hIni hFin = some e →
        dtLeB ⟨base, hIni⟩ e = true ∧
        (timeLtB hFin hIni = true → e = ⟨nextDay base, hFin⟩) ∧
        (timeLtB hFin hIni = false → e = ⟨base, hFin⟩)) ∧
    procesar_imagen_ocr "mar, 5 de mar 2024\nCompletado\nNightShop\n23:50 - 00:15" 2026
      = .ok [{ horaAceptacion := "05/03/2024 23:50",
               horaEntrega := "06/03/2024 00:15",
               nombreLocal := "NightShop" }] := by
  constructor
  · intro base hIni hFin e hc
    unfold computeEntrega at hc
    rw [dtLtB_same_date] at hc
    by_cases hlt : timeLtB hFin hIni = true
    · rw [if_pos hlt] at hc
      obtain ⟨d', hd', he⟩ := Option.map_eq_some'.mp hc
      have hnd : d' = nextDay base := addDayChecked_some hd'
      subst hnd
      refine ⟨?_, fun _ => he.symm, fun hf => absurd hlt (by simp [hf])⟩
      have hasym := dateLtB_asymm (dateLtB_nextDay base)
      subst he
      simp [dtLeB, dtLtB, hasym.1, Ne.symm hasym.2]
    · rw [if_neg hlt] at hc
      have he : e = ⟨base, hFin⟩ := by
        cases hc; rfl
      refine ⟨?_, fun hf => absurd hf hlt, fun _ => he⟩
      subst he
      simp [dtLeB, dtLtB_same_date]
      simp only [Bool.not_eq_true] at hlt
      exact hlt
  · rfl

/-- C3 witness: the general rollover statement applied at the concrete
base date and clock times of the spec example. -/
theorem c3_delivery_rollover_witness :
    dtLeB ⟨⟨5, 3, 2024⟩, ⟨23, 50⟩⟩ ⟨⟨6, 3, 2024⟩, ⟨0, 15⟩⟩ = true ∧
    (timeLtB ⟨0, 15⟩ ⟨23, 50⟩ = true →
      (⟨⟨6, 3, 2024⟩, ⟨0, 15⟩⟩ : DateTime) = ⟨nextDay ⟨5, 3, 2024⟩, ⟨0, 15⟩⟩) ∧
    (timeLtB ⟨0, 15⟩ ⟨23, 50⟩ = false →
      (⟨⟨6, 3, 2024⟩, ⟨0, 15⟩⟩ : DateTime) = ⟨⟨5, 3, 2024⟩, ⟨0, 15⟩⟩) :=
  c3_delivery_rollover.1 ⟨5, 3, 2024⟩ ⟨23, 50⟩ ⟨0, 15⟩ _ (by rfl)

/-! ### No-anchor claim -/

lemma firstSome_eq_none {α : Type} (f : List Char → Option α)
    (l : List (List Char)) (h : ∀ x ∈ l, f x = none) : firstSome f l = none := by
  induction l with
  | nil => rfl
  | cons a t ih =>
    have ha := h a (by simp)
    simp only [firstSome, ha]
    exact ih (fun x hx => h x (by simp [hx]))

/-- C4.  When no OCR line matches the date-anchor pattern, both
orchestrator variants return the empty sequence, however many valid
time-range lines are present. -/
theorem c4_no_anchor_empty (texto : String) (y : Nat)
    (h : ∀ l ∈ mkLineas texto, searchFecha l = none) :
    procesar_imagen_ocr texto y = .ok [] ∧
    procesar_imagen_ocr_batch texto y = .ok [] := by
  have hf : firstSome searchFecha (mkLineas texto) = none := firstSome_eq_none _ _ h
  constructor <;> simp [procesar_imagen_ocr, procesar_imagen_ocr_batch, hf]

/-- C4 witness: an image with a valid time-range line and a year line
but no date anchor yields no candidates. -/
theorem c4_no_anchor_empty_witness :
    (∀ l ∈ mkLineas "Starbucks\n12:00 - 12:30\n2024", searchFecha l = none) ∧
    procesar_imagen_ocr "Starbucks\n12:00 - 12:30\n2024" 2026 = .ok [] :=
  ⟨by decide, (c4_no_anchor_empty _ 2026 (by decide)).1⟩

/-- C5.  Vendor-name reconstruction: index zero yields the literal
placeholder; index one takes the previous line only; at higher indices
the line two back is prepended space-joined exactly when the classifier
does not mark it as a separator; the assembled name then passes the
cleanup; and the two concrete spec examples evaluate as stated. -/
theorem c5_reconstruct_name :
    (∀ lineas, reconstruir_nombre lineas 0 = "Desconocido".toList) ∧
    (∀ lineas, reconstruir_nombre lineas 1 = limpiarNombre (lineas.getD 0 [])) ∧
    (∀ lineas i, 2 ≤ i → es_separadorCore (lineas.getD (i - 2) []) = true →
        reconstruir_nombre lineas i = limpiarNombre (lineas.getD (i - 1) [])) ∧
    (∀ lineas i, 2 ≤ i → es_separadorCore (lineas.getD (i - 2) []) = false →
        reconstruir_nombre lineas i
          = limpiarNombre (lineas.getD (i - 2) [] ++ ' ' :: lineas.getD (i - 1) [])) ∧
    reconstruir_nombre ["El Local".toList, "Bueno".toList, "12:00 - 12:30".toList] 2
      = "El Local Bueno".toList ∧
    reconstruir_nombre ["Completado".toList, "Starbucks".toList, "19:45 - 20:10".toList] 2
      = "Starbucks".toList := by
  refine ⟨fun lineas => rfl, fun lineas => rfl, ?_, ?_, by rfl, by rfl⟩
  · intro lineas i hi hsep
    have h0 : ¬ i = 0 := by omega
    unfold reconstruir_nombre
    rw [if_neg h0, if_neg]
    intro ⟨_, hc⟩
    rw [hsep] at hc
    exact Bool.true_eq_false.mp hc
  · intro lineas i hi hsep
    have h0 : ¬ i = 0 := by omega
    have h1 : 1 < i := by omega
    unfold reconstruir_nombre
    rw [if_neg h0, if_pos ⟨h1, hsep⟩]

/-- C5 witness: the separator-exclusion case applied at the concrete
second spec example. -/
theorem c5_reconstruct_name_witness :
    reconstruir_nombre ["Completado".toList, "Starbucks".toList, "19:45 - 20:10".toList] 2
      = limpiarNombre
          ((["Completado".toList, "Starbucks".toList, "19:45 - 20:10".toList].getD 1 [])) :=
  c5_reconstruct_name.2.2.1 _ 2 (by omega) (by decide)

/-! ### Signature claims -/

/-- C6 counterexample.  The claim states that an order with an empty
acceptance string is never reported as already existing against a set
built by the signature constructor; but a historical row whose stored
acceptance text normalizes (through the lenient passthrough) to a
string beginning with an underscore produces a signature that an
empty-acceptance query reproduces exactly, so the duplicate test
returns true. -/
theorem c6_counterexample :
    pedido_ya_existe "" "x_y"
      (obtener_firmas_existentes [⟨some "_x", some "y"⟩]) = true := by
  rfl

lemma str_eq_empty_iff (s : String) : s = "" ↔ s.data = [] := by
  cases s
  simp [String.ext_iff]

lemma mem_obtener_firmas {rows : List RowFirma} {sig : String}
    (h : sig ∈ obtener_firmas_existentes rows) :
    ∃ r ∈ rows, normalizar_para_comparar r.horaAceptacion ≠ "" ∧
      normalizar_para_comparar r.horaEntrega ≠ "" ∧
      sig = normalizar_para_comparar r.horaAceptacion ++ "_" ++
        normalizar_para_comparar r.horaEntrega := by
  simp only [obtener_firmas_existentes, List.mem_filterMap] at h
  obtain ⟨r, hr, hf⟩ := h
  refine ⟨r, hr, ?_⟩
  by_cases hc : normalizar_para_comparar r.horaAceptacion ≠ "" ∧
      normalizar_para_comparar r.horaEntrega ≠ ""
  · rw [if_pos hc] at hf
    exact ⟨hc.1, hc.2, (Option.some.injEq _ _ ▸ hf).symm⟩
  · rw [if_neg hc] at hf
    cases hf

/-- C6 amended.  Signatures are the underscore-joined normalized
timestamps; the constructor inserts one only when both normalized
halves are non-empty; the duplicate test is exact membership; the
spec's concrete membership example holds and both one-minute
perturbations miss; and an order missing either timestamp is never
reported as existing, provided no historical row normalizes its
acceptance to a string beginning with an underscore or its delivery to
a string ending with one (without that proviso the claim fails, see the
counterexample). -/
theorem c6_signature_dedup_amended :
    (pedido_ya_existe "05/03/2024 23:50" "06/03/2024 00:15"
        ["05/03/2024 23:50_06/03/2024 00:15"] = true ∧
     pedido_ya_existe "05/03/2024 23:51" "06/03/2024 00:15"
        ["05/03/2024 23:50_06/03/2024 00:15"] = false ∧
     pedido_ya_existe "05/03/2024 23:50" "06/03/2024 00:16"
        ["05/03/2024 23:50_06/03/2024 00:15"] = false) ∧
    (∀ (rows : List RowFirma) (sig : String),
        sig ∈ obtener_firmas_existentes rows →
        ∃ r ∈ rows, normalizar_para_comparar r.horaAceptacion ≠ "" ∧
          normalizar_para_comparar r.horaEntrega ≠ "" ∧
          sig = normalizar_para_comparar r.horaAceptacion ++ "_" ++
            normalizar_para_comparar r.horaEntrega) ∧
    (∀ rows : List RowFirma,
        (∀ r ∈ rows,
          (normalizar_para_comparar r.horaAceptacion).data.head? ≠ some '_' ∧
          (normalizar_para_comparar r.horaEntrega).data.getLast? ≠ some '_') →
        ∀ ha he : String, ha = "" ∨ he = "" →
          pedido_ya_existe ha he (obtener_firmas_existentes rows) = false) := by
  refine ⟨⟨by rfl, by rfl, by rfl⟩, fun rows sig h => mem_obtener_firmas h, ?_⟩
  intro rows hrows ha he hempty
  rw [← Bool.not_eq_true]
  intro hmem
  rw [pedido_ya_existe, decide_eq_true_eq] at hmem
  obtain ⟨r, hr, hha, hhe, hsig⟩ := mem_obtener_firmas hmem
  have hdata := congrArg String.data hsig
  have happ : ∀ s t : String, (s ++ t).data = s.data ++ t.data := fun s t => rfl
  have e0 : ("".data : List Char) = [] := rfl
  have e1 : ("_".data : List Char) = ['_'] := rfl
  rw [happ, happ, happ, happ, e1] at hdata
  rcases hempty with hcase | hcase
  · subst hcase
    rw [e0] at hdata
    have hne : (normalizar_para_comparar r.horaAceptacion).data ≠ [] :=
      fun hnil => hha ((str_eq_empty_iff _).mpr hnil)
    obtain ⟨c, cs, hm⟩ := List.exists_cons_of_ne_nil hne
    rw [hm] at hdata
    simp only [List.nil_append, List.cons_append, List.append_assoc,
      List.singleton_append] at hdata
    have hc : c = '_' := by
      injection hdata with h1 _
      exact h1.symm
    exact (hrows r hr).1 (by rw [hm, hc]; rfl)
  · subst hcase
    rw [e0] at hdata
    have hBne : (normalizar_para_comparar r.horaEntrega).data ≠ [] :=
      fun hnil => hhe ((str_eq_empty_iff _).mpr hnil)
    have hBrne : (normalizar_para_comparar r.horaEntrega).data.reverse ≠ [] := by
      simpa [List.reverse_eq_nil_iff] using hBne
    obtain ⟨d, ds, hdr⟩ := List.exists_cons_of_ne_nil hBrne
    have h0 := congrArg List.reverse hdata
    simp only [List.reverse_append, List.reverse_cons, List.reverse_nil,
      List.nil_append, List.cons_append, List.append_nil, List.append_assoc,
      List.singleton_append, hdr] at h0
    have hd : d = '_' := by
      injection h0 with h1 _
      exact h1.symm
    have hB : (normalizar_para_comparar r.horaEntrega).data
        = ds.reverse ++ ['_'] := by
      have h2 := congrArg List.reverse hdr
      rw [List.reverse_reverse] at h2
      rw [h2, hd]
      simp
    exact (hrows r hr).2 (by rw [hB, List.getLast?_concat])

/-- C6 witness: the guarded empty-never-matches statement applied to a
concrete canonical historical row and an empty-delivery query. -/
theorem c6_signature_dedup_amended_witness :
    pedido_ya_existe "05/03/2024 23:50" ""
      (obtener_firmas_existentes
        [⟨some "05/03/2024 23:50", some "06/03/2024 00:15"⟩]) = false :=
  c6_signature_dedup_amended.2.2
    [⟨some "05/03/2024 23:50", some "06/03/2024 00:15"⟩]
    (by decide) "05/03/2024 23:50" "" (Or.inr rfl)

/-! ### Line-classifier claim -/

/-- C8.  The line classifier is a pure total function agreeing with the
claim's disjunction of rules, and the four concrete spec examples
evaluate as stated. -/
theorem c8_es_separador :
    es_separador "1234567" = true ∧
    es_separador "Starbucks Palermo" = false ∧
    es_separador "vie, 5" = true ∧
    es_separador "Pedido Agrupado" = true ∧
    (∀ texto : String, es_separador texto = esSeparadorClaim texto) := by
  refine ⟨by rfl, by rfl, by rfl, by rfl, ?_⟩
  intro texto
  simp only [es_separador, es_separadorCore, esSeparadorClaim]
  split_ifs with h1 h2 h3 h4 <;> simp_all

/-- C8 witness: the classifier-claim agreement applied at a concrete
line. -/
theorem c8_es_separador_witness :
    es_separador "semana 49" = esSeparadorClaim "semana 49" :=
  c8_es_separador.2.2.2.2 "semana 49"

/-! ### Enrichment-lookup claim -/

lemma lookup_uniqFirstGo (f : String → DatosLocal) (l : List String) :
    ∀ (seen : List String) (n : String),
    ((uniqFirstGo seen l).map (fun x => (x, f x))).lookup n
      = if n ∈ l ∧ n ∉ seen then some (f n) else none := by
  induction l with
  | nil => intro seen n; simp [uniqFirstGo]
  | cons a t ih =>
    intro seen n
    by_cases ha : a ∈ seen
    · rw [uniqFirstGo, if_pos ha, ih seen n]
      by_cases hn : n = a
      · subst hn
        simp [ha]
      · simp [hn]
    · rw [uniqFirstGo, if_neg ha]
      by_cases hn : n = a
      · subst hn
        simp [List.lookup, ha]
      · have hbeq : (n == a) = false := by
          simp [hn]
        simp only [List.map_cons, List.lookup, hbeq, ih (a :: seen) n,
          List.mem_cons]
        by_cases hmem : n ∈ t <;> by_cases hseen : n ∈ seen <;>
          simp [hmem, hseen, hn]

lemma filter_nombre_comm (rows : List RowLocal) (n : String) :
    (rows.filter (fun r => r.nombreLocal.isSome)).filter
        (fun r => r.nombreLocal = some n)
      = rows.filter (fun r => r.nombreLocal = some n) := by
  rw [List.filter_filter]
  apply List.filter_congr
  intro r _
  cases hr : r.nombreLocal <;> simp [hr]

/-- C9.  The enrichment lookup returns, for every vendor name and
historical dataset, the attributes of the most-recently-appearing
stored row bearing that name, and a record of empty-string defaults
when the name is absent; on a dataset whose two rows disagree on
business type the later row wins. -/
theorem c9_lookup_last_write :
    (∀ (nombre : String) (rows : List RowLocal),
        completar_datos_local_desde_historico nombre rows
          = atributosUltimaFila rows nombre) ∧
    completar_datos_local_desde_historico "X"
        [⟨some "X", "cafe", "si", "1000"⟩, ⟨some "X", "bar", "no", "2000"⟩]
      = ⟨"bar", "no", "2000"⟩ ∧
    completar_datos_local_desde_historico "Y"
        [⟨some "X", "cafe", "si", "1000"⟩, ⟨some "X", "bar", "no", "2000"⟩]
      = ⟨"", "", ""⟩ := by
  refine ⟨?_, by rfl, by rfl⟩
  intro n rows
  unfold completar_datos_local_desde_historico obtener_diccionario_locales uniqFirst
  rw [lookup_uniqFirstGo]
  by_cases hn : n ∈ (rows.filter (fun r => r.nombreLocal.isSome)).filterMap
      (fun r => r.nombreLocal)
  · rw [if_pos ⟨hn, by simp⟩]
    simp only [Option.getD_some]
    unfold atributosUltimaFila
    rw [filter_nombre_comm]
  · rw [if_neg (by simp [hn])]
    simp only [Option.getD_none]
    unfold atributosUltimaFila
    have hfil : rows.filter (fun r => r.nombreLocal = some n) = [] := by
      rw [List.filter_eq_nil_iff]
      intro r hr heq
      apply hn
      rw [List.mem_filterMap]
      refine ⟨r, List.mem_filter.mpr ⟨hr, ?_⟩, ?_⟩
      · simp only [decide_eq_true_eq] at heq
        simp [heq]
      · simpa using heq
    rw [hfil]
    rfl

/-- C9 witness: the general last-write-wins statement applied at a
concrete name and dataset. -/
theorem c9_lookup_last_write_witness :
    completar_datos_local_desde_historico "Z"
        [⟨some "Z", "kiosco", "no", "1414"⟩]
      = atributosUltimaFila [⟨some "Z", "kiosco", "no", "1414"⟩] "Z" :=
  c9_lookup_last_write.1 "Z" [⟨some "Z", "kiosco", "no", "1414"⟩]

/-! ### Round-trip lemmas for the canonical timestamp format -/

lemma digVal_le {c : Char} {v : Nat} (h : digVal c = some v) : v ≤ 9 := by
  unfold digVal at h
  split_ifs at h with hd
  simp only [isDigitCh, Bool.and_eq_true, decide_eq_true_eq] at hd
  simp only [Option.some.injEq] at h
  omega

lemma digVal_dChar {n : Nat} (h : n ≤ 9) : digVal (dChar n) = some n := by
  interval_cases n <;> rfl

lemma isWS_dChar {n : Nat} (h : n ≤ 9) : isWS (dChar n) = false := by
  interval_cases n <;> rfl

lemma expectCh_cons (c : Char) (rest : List Char) :
    expectCh c (c :: rest) = some rest := by
  simp [expectCh]

lemma parseField_pad2 (ok2 ok1 : Nat → Bool) {v : Nat} (hv : v ≤ 99)
    (h2 : ok2 v = true) (rest : List Char) :
    parseField ok2 ok1 (pad2 v ++ rest) = some (v, rest) := by
  have hq : v / 10 % 10 = v / 10 := Nat.mod_eq_of_lt (by omega)
  have h1 : v / 10 ≤ 9 := by omega
  have h0 : v % 10 ≤ 9 := by omega
  have hrec : 10 * (v / 10) + v % 10 = v := by omega
  simp only [pad2, hq, List.cons_append, List.nil_append, parseField,
    digVal_dChar h1, digVal_dChar h0, hrec, h2, if_true]

lemma parseField_pad2_nil (ok2 ok1 : Nat → Bool) {v : Nat} (hv : v ≤ 99)
    (h2 : ok2 v = true) :
    parseField ok2 ok1 (pad2 v) = some (v, []) := by
  have := parseField_pad2 ok2 ok1 hv h2 []
  simpa using this

lemma parseYear4_pad4 {y : Nat} (hy : y ≤ 9999) (rest : List Char) :
    parseYear4 (pad4 y ++ rest) = some (y, rest) := by
  have h3 : y / 1000 % 10 ≤ 9 := by omega
  have h2 : y / 100 % 10 ≤ 9 := by omega
  have h1 : y / 10 % 10 ≤ 9 := by omega
  have h0 : y % 10 ≤ 9 := by omega
  have hrec : 1000 * (y / 1000 % 10) + 100 * (y / 100 % 10) +
      10 * (y / 10 % 10) + y % 10 = y := by omega
  simp only [pad4, List.cons_append, List.nil_append, parseYear4,
    digVal_dChar h3, digVal_dChar h2, digVal_dChar h1, digVal_dChar h0, hrec]

lemma dropWhile_pad2 (n : Nat) (rest : List Char) :
    (pad2 n ++ rest).dropWhile isWS = pad2 n ++ rest := by
  simp [pad2, List.dropWhile_cons, isWS_dChar (show n / 10 % 10 ≤ 9 by omega)]

lemma parseWS1_pad2 (n : Nat) (rest : List Char) :
    parseWS1 (' ' :: (pad2 n ++ rest)) = some (pad2 n ++ rest) := by
  simp [parseWS1, isWS, dropWhile_pad2]

lemma daysInMonth_le_31 (m y : Nat) : daysInMonth m y ≤ 31 := by
  unfold daysInMonth
  split_ifs <;> omega

lemma daysInMonth_pos (m y : Nat) : 1 ≤ daysInMonth m y := by
  unfold daysInMonth
  split_ifs <;> omega

lemma fmtDMYhm_render {dt : DateTime} (hD : validDate dt.date)
    (hT : validTime dt.time) : fmtDMYhm (renderDT dt) = some dt := by
  obtain ⟨⟨d, m, y⟩, ⟨h, mi⟩⟩ := dt
  obtain ⟨hy1, hy2, hm1, hm2, hd1, hd2⟩ := hD
  obtain ⟨hh, hmi⟩ := hT
  dsimp only at hy1 hy2 hm1 hm2 hd1 hd2 hh hmi
  have hd31 : d ≤ 31 := le_trans hd2 (daysInMonth_le_31 m y)
  have hokd : okD2 d = true := by
    simp only [okD2, decide_eq_true_eq]
    exact ⟨hd1, hd31⟩
  have hokm : okM2 m = true := by
    simp only [okM2, decide_eq_true_eq]
    exact ⟨hm1, hm2⟩
  have hokh : okH2 h = true := by
    simp only [okH2, decide_eq_true_eq]
    exact hh
  have hokmi : okMin2 mi = true := by
    simp only [okMin2, decide_eq_true_eq]
    exact hmi
  simp only [renderDT, fmtDMYhm,
    parseField_pad2 okD2 okD1 (by omega) hokd,
    expectCh_cons,
    parseField_pad2 okM2 okM1 (by omega) hokm,
    parseYear4_pad4 hy2,
    parseWS1_pad2,
    parseField_pad2 okH2 okH1 (by omega) hokh,
    parseField_pad2_nil okMin2 okMin1 (by omega) hokmi,
    Option.bind_eq_bind, Option.some_bind]
  simp [hy1, hd2]

lemma fmtDMYhms_render_none {dt : DateTime} (hD : validDate dt.date)
    (hT : validTime dt.time) : fmtDMYhms (renderDT dt) = none := by
  obtain ⟨⟨d, m, y⟩, ⟨h, mi⟩⟩ := dt
  obtain ⟨hy1, hy2, hm1, hm2, hd1, hd2⟩ := hD
  obtain ⟨hh, hmi⟩ := hT
  dsimp only at hy1 hy2 hm1 hm2 hd1 hd2 hh hmi
  have hd31 : d ≤ 31 := le_trans hd2 (daysInMonth_le_31 m y)
  have hokd : okD2 d = true := by
    simp only [okD2, decide_eq_true_eq]
    exact ⟨hd1, hd31⟩
  have hokm : okM2 m = true := by
    simp only [okM2, decide_eq_true_eq]
    exact ⟨hm1, hm2⟩
  have hokh : okH2 h = true := by
    simp only [okH2, decide_eq_true_eq]
    exact hh
  have hokmi : okMin2 mi = true := by
    simp only [okMin2, decide_eq_true_eq]
    exact hmi
  simp only [renderDT, fmtDMYhms,
    parseField_pad2 okD2 okD1 (by omega) hokd,
    expectCh_cons,
    parseField_pad2 okM2 okM1 (by omega) hokm,
    parseYear4_pad4 hy2,
    parseWS1_pad2,
    parseField_pad2 okH2 okH1 (by omega) hokh,
    parseField_pad2_nil okMin2 okMin1 (by omega) hokmi,
    Option.bind_eq_bind, Option.some_bind]
  rfl

lemma digVal_slash : digVal '/' = none := by rfl

lemma parseYear4_pad2_slash (v : Nat) (rest : List Char) :
    parseYear4 (pad2 v ++ '/' :: rest) = none := by
  cases rest with
  | nil => simp [pad2, parseYear4]
  | cons c r =>
    simp only [pad2, List.cons_append, List.nil_append, parseYear4,
      digVal_dChar (show v / 10 % 10 ≤ 9 by omega),
      digVal_dChar (show v % 10 ≤ 9 by omega), digVal_slash]

lemma fmtYMDhms_render_none (dt : DateTime) :
    fmtYMDhms (renderDT dt) = none := by
  simp only [renderDT, fmtYMDhms, parseYear4_pad2_slash, Option.bind_eq_bind,
    Option.none_bind]

lemma fmtYMDhm_render_none (dt : DateTime) :
    fmtYMDhm (renderDT dt) = none := by
  simp only [renderDT, fmtYMDhm, parseYear4_pad2_slash, Option.bind_eq_bind,
    Option.none_bind]

lemma tryFormats_render {dt : DateTime} (hD : validDate dt.date)
    (hT : validTime dt.time) : tryFormats (renderDT dt) = some dt := by
  simp only [tryFormats, fmtDMYhms_render_none hD hT,
    fmtYMDhms_render_none, fmtDMYhm_render hD hT, Option.none_orElse,
    Option.some_orElse]

lemma lstrip_cons_nonws {a : Char} (h : isWS a = false) (l : List Char) :
    lstrip (a :: l) = a :: l := by
  simp [lstrip, List.dropWhile_cons, h]

lemma rstripRec_concat_nonws {c : Char} (h : isWS c = false) (l : List Char) :
    rstripRec (l ++ [c]) = l ++ [c] := by
  induction l with
  | nil => simp [rstripRec, h]
  | cons a t ih =>
    rw [List.cons_append]
    rw [rstripRec.eq_def]
    simp only [ih]
    cases ht : t ++ [c] with
    | nil => exact absurd ht (by simp)
    | cons x xs => rfl

lemma renderDT_concat (dt : DateTime) :
    renderDT dt = (pad2 dt.date.day ++ '/' :: (pad2 dt.date.month ++ '/' ::
      (pad4 dt.date.year ++ ' ' :: (pad2 dt.time.hour ++ ':' ::
        [dChar (dt.time.minute / 10 % 10)])))) ++ [dChar (dt.time.minute % 10)] := by
  simp [renderDT, pad2]

lemma strip_renderDT (dt : DateTime) : strip (renderDT dt) = renderDT dt := by
  have hhead : lstrip (renderDT dt) = renderDT dt := by
    rw [renderDT]
    rw [pad2, List.cons_append]
    exact lstrip_cons_nonws (isWS_dChar (by omega)) _
  rw [strip, hhead, renderDT_concat]
  exact rstripRec_concat_nonws (isWS_dChar (by omega)) _

lemma renderDT_ne_nil (dt : DateTime) : renderDT dt ≠ [] := by
  rw [renderDT, pad2, List.cons_append]
  simp

lemma toList_mk (l : List Char) : (String.mk l).toList = l := rfl

lemma normalizar_render {dt : DateTime} (hD : validDate dt.date)
    (hT : validTime dt.time) :
    normalizar_para_comparar (some (String.mk (renderDT dt)))
      = String.mk (renderDT dt) := by
  have hne : String.mk (renderDT dt) ≠ "" :=
    fun he => renderDT_ne_nil dt ((str_eq_empty_iff _).mp he)
  simp only [normalizar_para_comparar, if_neg hne, toList_mk,
    strip_renderDT, tryFormats_render hD hT]

/-! ### Idempotence of stripping -/

lemma dropWhile_idem (p : Char → Bool) (l : List Char) :
    List.dropWhile p (List.dropWhile p l) = List.dropWhile p l := by
  induction l with
  | nil => rfl
  | cons a t ih =>
    by_cases h : p a
    · simp [List.dropWhile_cons, h, ih]
    · simp [List.dropWhile_cons, h]

lemma rstripRec_shape (c : Char) (t : List Char) :
    rstripRec (c :: t) = [] ∨ ∃ r, rstripRec (c :: t) = c :: r := by
  simp only [rstripRec]
  cases h : rstripRec t with
  | nil =>
    by_cases hc : isWS c
    · left
      simp [hc]
    · right
      exact ⟨[], by simp [hc]⟩
  | cons x xs => exact Or.inr ⟨x :: xs, rfl⟩

lemma lstrip_rstripRec {l : List Char} (h : lstrip l = l) :
    lstrip (rstripRec l) = rstripRec l := by
  cases l with
  | nil => rfl
  | cons a t =>
    have ha : isWS a = false := by
      by_contra hc
      rw [Bool.not_eq_false] at hc
      have hlen := congrArg List.length h
      rw [lstrip, List.dropWhile_cons, if_pos hc] at hlen
      have := (List.dropWhile_sublist (l := t) isWS).length_le
      simp at hlen
      omega
    rcases rstripRec_shape a t with h0 | ⟨r, h0⟩
    · rw [h0]
      rfl
    · rw [h0]
      exact lstrip_cons_nonws ha r

lemma rstripRec_last (l : List Char) :
    rstripRec l = [] ∨ ∃ l' c, rstripRec l = l' ++ [c] ∧ isWS c = false := by
  induction l with
  | nil => exact Or.inl rfl
  | cons a t ih =>
    simp only [rstripRec]
    cases h : rstripRec t with
    | nil =>
      by_cases hc : isWS a
      · left
        simp [hc]
      · right
        exact ⟨[], a, by simp [hc], by simpa using hc⟩
    | cons x xs =>
      rcases ih with h0 | ⟨l', c, h1, h2⟩
      · rw [h0] at h
        cases h
      · right
        refine ⟨a :: l', c, ?_, h2⟩
        show a :: x :: xs = a :: l' ++ [c]
        rw [h] at h1
        rw [h1, List.cons_append]

lemma rstripRec_idem (l : List Char) : rstripRec (rstripRec l) = rstripRec l := by
  rcases rstripRec_last l with h | ⟨l', c, h1, h2⟩
  · rw [h]
    rfl
  · rw [h1]
    exact rstripRec_concat_nonws h2 l'

lemma strip_strip (l : List Char) : strip (strip l) = strip l := by
  rw [strip, strip]
  have hl : lstrip (lstrip l) = lstrip l := dropWhile_idem isWS l
  rw [lstrip_rstripRec hl]
  exact rstripRec_idem (lstrip l)

/-! ### Bounds carried by successful parses -/

lemma parseField_bound {ok2 ok1 : Nat → Bool} {cs : List Char} {v : Nat}
    {r : List Char} (h : parseField ok2 ok1 cs = some (v, r)) :
    ok2 v = true ∨ (ok1 v = true ∧ v ≤ 9) := by
  cases cs with
  | nil => simp [parseField] at h
  | cons c1 t =>
    cases t with
    | nil =>
      cases hd : digVal c1 with
      | none => simp [parseField, hd] at h
      | some v1 =>
        simp only [parseField, hd] at h
        split_ifs at h with h1
        simp only [Option.some.injEq, Prod.mk.injEq] at h
        obtain ⟨hv, -⟩ := h
        subst hv
        exact Or.inr ⟨h1, digVal_le hd⟩
    | cons c2 t2 =>
      cases hd1 : digVal c1 with
      | none => simp [parseField, hd1] at h
      | some v1 =>
        cases hd2 : digVal c2 with
        | none =>
          simp only [parseField, hd1, hd2] at h
          split_ifs at h with h1
          simp only [Option.some.injEq, Prod.mk.injEq] at h
          obtain ⟨hv, -⟩ := h
          subst hv
          exact Or.inr ⟨h1, digVal_le hd1⟩
        | some v2 =>
          simp only [parseField, hd1, hd2] at h
          split_ifs at h with h2
          simp only [Option.some.injEq, Prod.mk.injEq] at h
          obtain ⟨hv, -⟩ := h
          subst hv
          exact Or.inl h2

lemma parseYear4_bound {cs : List Char} {y : Nat} {r : List Char}
    (h : parseYear4 cs = some (y, r)) : y ≤ 9999 := by
  unfold parseYear4 at h
  split at h
  · rename_i c1 c2 c3 c4 rest
    cases h1 : digVal c1 with
    | none => simp [h1] at h
    | some a =>
      cases h2 : digVal c2 with
      | none => simp [h1, h2] at h
      | some b =>
        cases h3 : digVal c3 with
        | none => simp [h1, h2, h3] at h
        | some c =>
          cases h4 : digVal c4 with
          | none => simp [h1, h2, h3, h4] at h
          | some d =>
            simp only [h1, h2, h3, h4, Option.some.injEq, Prod.mk.injEq] at h
            obtain ⟨hy, -⟩ := h
            have ha := digVal_le h1
            have hb := digVal_le h2
            have hc := digVal_le h3
            have hd := digVal_le h4
            omega
  · exact Option.noConfusion h

lemma okD_bound {d : Nat} (h : okD2 d = true ∨ (okD1 d = true ∧ d ≤ 9)) :
    1 ≤ d := by
  rcases h with h | ⟨h, -⟩ <;>
    simp only [okD2, okD1, decide_eq_true_eq] at h <;> omega

lemma okM_bound {m : Nat} (h : okM2 m = true ∨ (okM1 m = true ∧ m ≤ 9)) :
    1 ≤ m ∧ m ≤ 12 := by
  rcases h with h | ⟨h, h9⟩ <;>
    simp only [okM2, okM1, decide_eq_true_eq] at h <;> omega

lemma okH_bound {h : Nat} (hb : okH2 h = true ∨ (okH1 h = true ∧ h ≤ 9)) :
    h ≤ 23 := by
  rcases hb with hb | ⟨-, h9⟩
  · simp only [okH2, decide_eq_true_eq] at hb
    omega
  · omega

lemma okMin_bound {m : Nat} (hb : okMin2 m = true ∨ (okMin1 m = true ∧ m ≤ 9)) :
    m ≤ 59 := by
  rcases hb with hb | ⟨-, h9⟩
  · simp only [okMin2, decide_eq_true_eq] at hb
    omega
  · omega

lemma fmtDMYhm_valid {cs : List Char} {dt : DateTime}
    (h : fmtDMYhm cs = some dt) : validDate dt.date ∧ validTime dt.time := by
  simp only [fmtDMYhm, Option.bind_eq_bind, Option.bind_eq_some] at h
  obtain ⟨⟨d, r1⟩, hp1, h⟩ := h
  obtain ⟨r2, hp2, h⟩ := h
  obtain ⟨⟨m, r3⟩, hp3, h⟩ := h
  obtain ⟨r4, hp4, h⟩ := h
  obtain ⟨⟨y, r5⟩, hp5, h⟩ := h
  obtain ⟨r6, hp6, h⟩ := h
  obtain ⟨⟨hh, r7⟩, hp7, h⟩ := h
  obtain ⟨r8, hp8, h⟩ := h
  obtain ⟨⟨mi, r9⟩, hp9, h⟩ := h
  split_ifs at h with hcond
  obtain ⟨-, hy1, hdim⟩ := hcond
  simp only [Option.some.injEq] at h
  subst h
  have hmB := okM_bound (parseField_bound hp3)
  exact ⟨⟨hy1, parseYear4_bound hp5, hmB.1, hmB.2,
    okD_bound (parseField_bound hp1), hdim⟩,
    okH_bound (parseField_bound hp7), okMin_bound (parseField_bound hp9)⟩

lemma fmtDMYhms_valid {cs : List Char} {dt : DateTime}
    (h : fmtDMYhms cs = some dt) : validDate dt.date ∧ validTime dt.time := by
  simp only [fmtDMYhms, Option.bind_eq_bind, Option.bind_eq_some] at h
  obtain ⟨⟨d, r1⟩, hp1, h⟩ := h
  obtain ⟨r2, hp2, h⟩ := h
  obtain ⟨⟨m, r3⟩, hp3, h⟩ := h
  obtain ⟨r4, hp4, h⟩ := h
  obtain ⟨⟨y, r5⟩, hp5, h⟩ := h
  obtain ⟨r6, hp6, h⟩ := h
  obtain ⟨⟨hh, r7⟩, hp7, h⟩ := h
  obtain ⟨r8, hp8, h⟩ := h
  obtain ⟨⟨mi, r9⟩, hp9, h⟩ := h
  obtain ⟨r10, hp10, h⟩ := h
  obtain ⟨⟨s, r11⟩, hp11, h⟩ := h
  split_ifs at h with hcond
  obtain ⟨-, hy1, hdim, -⟩ := hcond
  simp only [Option.some.injEq] at h
  subst h
  have hmB := okM_bound (parseField_bound hp3)
  exact ⟨⟨hy1, parseYear4_bound hp5, hmB.1, hmB.2,
    okD_bound (parseField_bound hp1), hdim⟩,
    okH_bound (parseField_bound hp7), okMin_bound (parseField_bound hp9)⟩

lemma fmtYMDhm_valid {cs : List Char} {dt : DateTime}
    (h : fmtYMDhm cs = some dt) : validDate dt.date ∧ validTime dt.time := by
  simp only [fmtYMDhm, Option.bind_eq_bind, Option.bind_eq_some] at h
  obtain ⟨⟨y, r1⟩, hp1, h⟩ := h
  obtain ⟨r2, hp2, h⟩ := h
  obtain ⟨⟨m, r3⟩, hp3, h⟩ := h
  obtain ⟨r4, hp4, h⟩ := h
  obtain ⟨⟨d, r5⟩, hp5, h⟩ := h
  obtain ⟨r6, hp6, h⟩ := h
  obtain ⟨⟨hh, r7⟩, hp7, h⟩ := h
  obtain ⟨r8, hp8, h⟩ := h
  obtain ⟨⟨mi, r9⟩, hp9, h⟩ := h
  split_ifs at h with hcond
  obtain ⟨-, hy1, hdim⟩ := hcond
  simp only [Option.some.injEq] at h
  subst h
  have hmB := okM_bound (parseField_bound hp3)
  exact ⟨⟨hy1, parseYear4_bound hp1, hmB.1, hmB.2,
    okD_bound (parseField_bound hp5), hdim⟩,
    okH_bound (parseField_bound hp7), okMin_bound (parseField_bound hp9)⟩

lemma fmtYMDhms_valid {cs : List Char} {dt : DateTime}
    (h : fmtYMDhms cs = some dt) : validDate dt.date ∧ validTime dt.time := by
  simp only [fmtYMDhms, Option.bind_eq_bind, Option.bind_eq_some] at h
  obtain ⟨⟨y, r1⟩, hp1, h⟩ := h
  obtain ⟨r2, hp2, h⟩ := h
  obtain ⟨⟨m, r3⟩, hp3, h⟩ := h
  obtain ⟨r4, hp4, h⟩ := h
  obtain ⟨⟨d, r5⟩, hp5, h⟩ := h
  obtain ⟨r6, hp6, h⟩ := h
  obtain ⟨⟨hh, r7⟩, hp7, h⟩ := h
  obtain ⟨r8, hp8, h⟩ := h
  obtain ⟨⟨mi, r9⟩, hp9, h⟩ := h
  obtain ⟨r10, hp10, h⟩ := h
  obtain ⟨⟨s, r11⟩, hp11, h⟩ := h
  split_ifs at h with hcond
  obtain ⟨-, hy1, hdim, -⟩ := hcond
  simp only [Option.some.injEq] at h
  subst h
  have hmB := okM_bound (parseField_bound hp3)
  exact ⟨⟨hy1, parseYear4_bound hp1, hmB.1, hmB.2,
    okD_bound (parseField_bound hp5), hdim⟩,
    okH_bound (parseField_bound hp7), okMin_bound (parseField_bound hp9)⟩

lemma tryFormats_valid {cs : List Char} {dt : DateTime}
    (h : tryFormats cs = some dt) : validDate dt.date ∧ validTime dt.time := by
  unfold tryFormats at h
  cases h1 : fmtDMYhms cs with
  | some dt' =>
    rw [h1, Option.some_orElse] at h
    cases h
    exact fmtDMYhms_valid h1
  | none =>
    rw [h1, Option.none_orElse] at h
    cases h2 : fmtYMDhms cs with
    | some dt' =>
      rw [h2, Option.some_orElse] at h
      cases h
      exact fmtYMDhms_valid h2
    | none =>
      rw [h2, Option.none_orElse] at h
      cases h3 : fmtDMYhm cs with
      | some dt' =>
        rw [h3, Option.some_orElse] at h
        cases h
        exact fmtDMYhm_valid h3
      | none =>
        rw [h3, Option.none_orElse] at h
        exact fmtYMDhm_valid h

/-- C7.  Timestamp normalization is idempotent on every input: null and
empty inputs map to the empty string whose normalization is empty;
parseable strings map to the canonical rendering, which re-parses under
the third format to the same value; unparseable strings pass through
trimmed, and trimming is idempotent. -/
theorem c7_normalize_idempotent (x : Option String) :
    normalizar_para_comparar (some (normalizar_para_comparar x))
      = normalizar_para_comparar x := by
  match x with
  | none => rfl
  | some s =>
    by_cases hs : s = ""
    · subst hs
      rfl
    · cases htf : tryFormats (strip s.toList) with
      | some dt =>
        have hval := tryFormats_valid htf
        have hres : normalizar_para_comparar (some s) = String.mk (renderDT dt) := by
          simp only [normalizar_para_comparar, if_neg hs, htf]
        rw [hres, normalizar_render hval.1 hval.2]
      | none =>
        have hres : normalizar_para_comparar (some s)
            = String.mk (strip s.toList) := by
          simp only [normalizar_para_comparar, if_neg hs, htf]
        rw [hres]
        by_cases ht : strip s.toList = []
        · rw [ht]
          rfl
        · have hne : String.mk (strip s.toList) ≠ "" :=
            fun he => ht ((str_eq_empty_iff _).mp he)
          simp only [normalizar_para_comparar, if_neg hne, toList_mk,
            strip_strip, htf]

/-- C7 witness: idempotence at a concrete parseable timestamp. -/
theorem c7_normalize_idempotent_witness :
    normalizar_para_comparar
        (some (normalizar_para_comparar (some "2024-03-05 23:50:00")))
      = normalizar_para_comparar (some "2024-03-05 23:50:00") :=
  c7_normalize_idempotent (some "2024-03-05 23:50:00")

/-! ### Canonical form of the orchestrator output -/

lemma parseTimeHM_valid {cs : List Char} {t : Time}
    (h : parseTimeHM cs = some t) : validTime t := by
  simp only [parseTimeHM, Option.bind_eq_bind, Option.bind_eq_some] at h
  obtain ⟨⟨hh, r1⟩, hp1, h⟩ := h
  obtain ⟨r2, hp2, h⟩ := h
  obtain ⟨⟨mi, r3⟩, hp3, h⟩ := h
  split_ifs at h
  simp only [Option.some.injEq] at h
  subst h
  exact ⟨okH_bound (parseField_bound hp1), okMin_bound (parseField_bound hp3)⟩

lemma parseDateDMY_valid {cs : List Char} {d : Date}
    (h : parseDateDMY cs = some d) : validDate d := by
  simp only [parseDateDMY, Option.bind_eq_bind, Option.bind_eq_some] at h
  obtain ⟨⟨dd, r1⟩, hp1, h⟩ := h
  obtain ⟨r2, hp2, h⟩ := h
  obtain ⟨⟨m, r3⟩, hp3, h⟩ := h
  obtain ⟨r4, hp4, h⟩ := h
  obtain ⟨⟨y, r5⟩, hp5, h⟩ := h
  split_ifs at h with hcond
  obtain ⟨-, hy1, hdim⟩ := hcond
  simp only [Option.some.injEq] at h
  subst h
  have hmB := okM_bound (parseField_bound hp3)
  exact ⟨hy1, parseYear4_bound hp5, hmB.1, hmB.2,
    okD_bound (parseField_bound hp1), hdim⟩

lemma validDate_mk {dd mm yy : Nat} (h1 : 1 ≤ yy) (h2 : yy ≤ 9999)
    (h3 : 1 ≤ mm) (h4 : mm ≤ 12) (h5 : 1 ≤ dd)
    (h6 : dd ≤ daysInMonth mm yy) : validDate ⟨dd, mm, yy⟩ :=
  ⟨h1, h2, h3, h4, h5, h6⟩

lemma addDayChecked_valid {d d' : Date} (hv : validDate d)
    (h : addDayChecked d = some d') : validDate d' := by
  obtain ⟨hy1, hy2, hm1, hm2, hd1, hd2⟩ := hv
  have hy : (nextDay d).year ≤ 9999 := by
    simp only [addDayChecked] at h
    split_ifs at h with hcc
    exact hcc
  have hnd : d' = nextDay d := addDayChecked_some h
  subst hnd
  unfold nextDay at hy ⊢
  split_ifs at hy ⊢ with hc1 hc2
  · exact validDate_mk hy1 hy2 hm1 hm2 (by omega) (by omega)
  · exact validDate_mk hy1 hy2 (by omega) (by omega) (by omega)
      (daysInMonth_pos _ _)
  · have hy' : d.year + 1 ≤ 9999 := hy
    exact validDate_mk (by omega) hy' (by omega) (by omega) (by omega)
      (daysInMonth_pos _ _)

lemma computeEntrega_valid {base : Date} {hIni hFin : Time} {e : DateTime}
    (hv : validDate base) (h : computeEntrega base hIni hFin = some e) :
    validDate e.date ∧ e.time = hFin := by
  unfold computeEntrega at h
  split_ifs at h with hlt
  · obtain ⟨d', hd', he⟩ := Option.map_eq_some'.mp h
    subst he
    exact ⟨addDayChecked_valid hv hd', rfl⟩
  · simp only [Option.some.injEq] at h
    subst h
    exact ⟨hv, rfl⟩

lemma pedidosLoop_strings {strict : Bool} {base : Date}
    {lineas : List (List Char)} (hv : validDate base) :
    ∀ (l : List (Nat × List Char)) (res : List Pedido),
      pedidosLoop strict base lineas l = .ok res →
      ∀ p ∈ res, ∃ dtA dtE : DateTime,
        validDate dtA.date ∧ validTime dtA.time ∧
        validDate dtE.date ∧ validTime dtE.time ∧
        p.horaAceptacion = String.mk (renderDT dtA) ∧
        p.horaEntrega = String.mk (renderDT dtE) := by
  intro l
  induction l with
  | nil =>
    intro res h p hp
    simp only [pedidosLoop] at h
    cases h
    cases hp
  | cons il rest ih =>
    obtain ⟨i, linea⟩ := il
    intro res h p hp
    rw [pedidosLoop] at h
    cases hsh : searchHoras linea with
    | none =>
      simp only [hsh] at h
      exact ih res h p hp
    | some g =>
      obtain ⟨g1, g2⟩ := g
      simp only [hsh] at h
      cases ht1 : parseTimeHM g1 with
      | none =>
        simp only [ht1] at h
        by_cases hst : strict = true
        · rw [if_pos hst] at h
          exact Except.noConfusion h
        · rw [if_neg hst] at h
          exact ih res h p hp
      | some t1 =>
        simp only [ht1] at h
        cases ht2 : parseTimeHM g2 with
        | none =>
          simp only [ht2] at h
          by_cases hst : strict = true
          · rw [if_pos hst] at h
            exact Except.noConfusion h
          · rw [if_neg hst] at h
            exact ih res h p hp
        | some t2 =>
          simp only [ht2] at h
          cases hce : computeEntrega base t1 t2 with
          | none =>
            simp only [hce] at h
            exact Except.noConfusion h
          | some dtEntr =>
            simp only [hce] at h
            cases hrec : pedidosLoop strict base lineas rest with
            | error e =>
              simp only [hrec] at h
              exact Except.noConfusion h
            | ok ps =>
              simp only [hrec, Except.ok.injEq] at h
              subst h
              rcases List.mem_cons.mp hp with hp0 | hps
              · subst hp0
                obtain ⟨hE, hEt⟩ := computeEntrega_valid hv hce
                refine ⟨⟨base, t1⟩, dtEntr, hv, parseTimeHM_valid ht1,
                  hE, ?_, rfl, rfl⟩
                rw [hEt]
                exact parseTimeHM_valid ht2
              · exact ih ps hrec p hps

/-- C10.  Every candidate the ingestion orchestrator emits carries
timestamps already in the canonical rendering of a valid datetime, so
normalization is the identity on them, and the signature constructor
applied to such a record yields exactly the raw concatenated signature
that the duplicate test uses. -/
theorem c10_canonical_output (texto : String) (y : Nat) (res : List Pedido)
    (h : procesar_imagen_ocr texto y = .ok res) :
    ∀ p ∈ res,
      normalizar_para_comparar (some p.horaAceptacion) = p.horaAceptacion ∧
      normalizar_para_comparar (some p.horaEntrega) = p.horaEntrega ∧
      obtener_firmas_existentes [⟨some p.horaAceptacion, some p.horaEntrega⟩]
        = [p.horaAceptacion ++ "_" ++ p.horaEntrega] := by
  intro p hp
  simp only [procesar_imagen_ocr] at h
  cases hfb : firstSome searchFecha (mkLineas texto) with
  | none =>
    simp only [hfb, Except.ok.injEq] at h
    subst h
    cases hp
  | some dsmon =>
    obtain ⟨ds, mon⟩ := dsmon
    simp only [hfb] at h
    cases hpd : parseDateDMY (fechaBaseDe ds mon ++ ['/'] ++
        ((firstSome searchAnio (mkLineas texto)).getD (Nat.repr y).toList)) with
    | none =>
      simp only [hpd] at h
      exact Except.noConfusion h
    | some base =>
      simp only [hpd] at h
      have hv := parseDateDMY_valid hpd
      obtain ⟨dtA, dtE, hA1, hA2, hE1, hE2, hpa, hpe⟩ :=
        pedidosLoop_strings hv _ res h p hp
      have hna : normalizar_para_comparar (some p.horaAceptacion)
          = p.horaAceptacion := by
        rw [hpa]
        exact normalizar_render hA1 hA2
      have hne : normalizar_para_comparar (some p.horaEntrega)
          = p.horaEntrega := by
        rw [hpe]
        exact normalizar_render hE1 hE2
      refine ⟨hna, hne, ?_⟩
      have hane : p.horaAceptacion ≠ "" := by
        rw [hpa]
        exact fun he => renderDT_ne_nil dtA ((str_eq_empty_iff _).mp he)
      have hene : p.horaEntrega ≠ "" := by
        rw [hpe]
        exact fun he => renderDT_ne_nil dtE ((str_eq_empty_iff _).mp he)
      simp only [obtener_firmas_existentes, List.filterMap, hna, hne]
      rw [if_pos ⟨hane, hene⟩]

/-- C10 witness: the canonical-output statement applied to the concrete
rollover image. -/
theorem c10_canonical_output_witness :
    normalizar_para_comparar (some "05/03/2024 23:50") = "05/03/2024 23:50" ∧
    normalizar_para_comparar (some "06/03/2024 00:15") = "06/03/2024 00:15" ∧
    obtener_firmas_existentes [⟨some "05/03/2024 23:50", some "06/03/2024 00:15"⟩]
      = ["05/03/2024 23:50_06/03/2024 00:15"] :=
  c10_canonical_output
    "mar, 5 de mar 2024\nCompletado\nNightShop\n23:50 - 00:15" 2026
    [{ horaAceptacion := "05/03/2024 23:50",
       horaEntrega := "06/03/2024 00:15",
       nombreLocal := "NightShop" }] (by rfl)
    { horaAceptacion := "05/03/2024 23:50",
      horaEntrega := "06/03/2024 00:15",
      nombreLocal := "NightShop" } (by simp)

end DeliveryOpt
